import Mathlib

/-!
Verification of the control and algorithmic layer of the exwave linearized
Euler driver (`src/source/linearized_euler.cc`).

The embedding uses exact rationals (ℚ) for the C++ `double` values: every
comparison and arithmetic operation of the modelled code is algebraic
(`+`, `-`, `*`, `/`, `<`), so the control flow is captured faithfully up to
the usual idealization of floating point as exact arithmetic.  The
degree-dependent scaling factor `std::pow(fe_degree, 1.5)` is an irrational
constant; it is carried as an abstract parameter `dfac` (with `1 ≤ dfac`
where needed, which holds for every `fe_degree ≥ 1`).

External collaborators (deal.II mesh, finite elements, MPI) are out of
scope per the specification; the embedding models the driver's own state
and decisions.  The class `HDG_WE::TimeControl` is declared in
`include/time_integrators.h`, which is not among the repository sources
given; it is modelled from the specification (§3, §4.1) where needed and
is marked as such.
-/

namespace ExwaveSpec

/-! ## Stability monitor (`LinearizedEulerProblem` members, source lines 148-151, 120-123, 435, 467-476) -/

/-- State of the stability monitor: the fields `first_error_val`,
`first_mangnitude_val` and `last_error_val` of `LinearizedEulerProblem`
(source lines 148-151). -/
structure StabilityRecord where
  first_error : ℚ
  first_magnitude : ℚ
  last_error : ℚ
deriving DecidableEq

/-- Constructor state (source lines 156-169): `first_error_val(-1.0)` is the
only one of the three monitor fields the constructor initializes; the other
two start indeterminate and are modelled by arbitrary parameters. -/
def initialRecord (m0 l0 : ℚ) : StabilityRecord :=
  ⟨-1, m0, l0⟩

/-- Divergence condition of source lines 122 and 474:
`last_error_val > 100.0 * first_error_val || last_error_val > 1.5 * first_mangnitude_val`. -/
def divergentB (r : StabilityRecord) : Bool :=
  decide (100 * r.first_error < r.last_error) ||
    decide (3 / 2 * r.first_magnitude < r.last_error)

/-- Source lines 120-123: `cfl_stable()` returns the negation of the
divergence disjunction. -/
def cfl_stable (r : StabilityRecord) : Bool :=
  !(divergentB r)

/-- Monitor update performed by one call of `output_results` when
`cfl_stability_analysis` is set: line 435 overwrites `last_error_val`
unconditionally; lines 469-473 latch `first_error_val = last_error_val` and
`first_mangnitude_val = density_mag` when the sentinel is still negative. -/
def observe_output (r : StabilityRecord) (err mag : ℚ) : StabilityRecord :=
  let r1 : StabilityRecord := { r with last_error := err }
  if r1.first_error < 0 then
    { r1 with first_error := r1.last_error, first_magnitude := mag }
  else r1

/-- Folding the monitor update over a list of (error, magnitude)
observations, one per output evaluation of a run. -/
def runMonitor (obs : List (ℚ × ℚ)) (r : StabilityRecord) : StabilityRecord :=
  obs.foldl (fun s p => observe_output s p.1 p.2) r

/-! ## TimeControl, modelled from the spec -/

/-- Modelled from the spec: the class `HDG_WE::TimeControl` is declared in
`include/time_integrators.h`, which is not among the given sources.  §3 of
the specification gives its state
`{current_time, step_number, step_size, final_time, output_interval, max_steps}`
and §4.1 the contracts of `done()`, `advance_time_step()` and `set_time(v)`
used below (the output-cadence fields are not needed by the claims and are
left out). -/
structure TimeControl where
  current_time : ℚ
  step_number : ℕ
  step_size : ℚ
  final_time : ℚ
  max_steps : ℕ
deriving DecidableEq

/-- Modelled from the spec (§3): `done()` is true exactly when
`current_time ≥ final_time` or `step_number ≥ max_steps`. -/
def TimeControl.done (t : TimeControl) : Bool :=
  decide (t.final_time ≤ t.current_time) || decide (t.max_steps ≤ t.step_number)

/-- Modelled from the spec (§4.2): `set_time(v)` overwrites the clock; used
by `output_results` (source line 475) to force early termination. -/
def TimeControl.set_time (t : TimeControl) (v : ℚ) : TimeControl :=
  { t with current_time := v }

/-- Modelled from the spec (§4.1): `advance_time_step()` increments the step
count and the clock by the step size. -/
def TimeControl.advance_time_step (t : TimeControl) : TimeControl :=
  { t with step_number := t.step_number + 1,
           current_time := t.current_time + t.step_size }

/-- The monitor- and time-control-relevant effect of one
`output_results()` call (source lines 435 and 467-476): `last_error_val` is
overwritten unconditionally; under `cfl_stability_analysis` the first-call
latch runs and, when the divergence condition holds, the clock is set to
`final_time`.  The function is total: divergence produces a state, never an
error. -/
def output_results (analysis : Bool) (err mag : ℚ)
    (r : StabilityRecord) (tc : TimeControl) : StabilityRecord × TimeControl :=
  if analysis then
    let r2 := observe_output r err mag
    if divergentB r2 then (r2, tc.set_time tc.final_time) else (r2, tc)
  else ({ r with last_error := err }, tc)

/-- Shape of the time loop of `run()` (source lines 651-677): while not
`done()`, advance the step, then (integration and adaptation mutate only
external state not tracked here) emit output at ticks.  The tick decision
and the observation values are abstract parameters; fuel bounds recursion
and suffices because each iteration increments `step_number`. -/
def driver_loop (analysis : Bool) (tickFn : TimeControl → Bool)
    (errs mags : ℕ → ℚ) : ℕ → StabilityRecord × TimeControl → StabilityRecord × TimeControl
  | 0, d => d
  | fuel + 1, d =>
    if d.2.done then d
    else
      let tc1 := d.2.advance_time_step
      let d1 := if tickFn tc1 then
          output_results analysis (errs tc1.step_number) (mags tc1.step_number) d.1 tc1
        else (d.1, tc1)
      driver_loop analysis tickFn errs mags fuel d1

/-! ## Adaptation controller: the flag-adjustment pass of `adapt_mesh` (source lines 254-315) -/

/-- Per-cell data read and written by the flag-adjustment loop of
`adapt_mesh` (source lines 271-286): the refinement level and the two
flags.  The cell's error indicator is passed separately. -/
structure CellState where
  level : ℤ
  refine : Bool
  coarsen : Bool
deriving DecidableEq

/-- Source lines 275-278: clear a refine flag on a cell already at
`max_level`, else clear a coarsen flag on a cell already at `min_level`
(an if / else-if chain). -/
def clamp_level_flags (min_level max_level : ℤ) (c : CellState) : CellState :=
  if c.refine = true ∧ c.level = max_level then { c with refine := false }
  else if c.coarsen = true ∧ c.level = min_level then { c with coarsen := false }
  else c

/-- Source lines 279-282: clear a refine flag when the cell's indicator is
below `0.1 * maximal_cellwise_error_init`. -/
def suppress_refine (max_err_init err : ℚ) (c : CellState) : CellState :=
  if c.refine = true ∧ err < 1 / 10 * max_err_init then { c with refine := false } else c

/-- Source lines 283-285: set a coarsen flag (on any cell) when the
indicator is below `0.05 * maximal_cellwise_error_init`. -/
def force_coarsen (max_err_init err : ℚ) (c : CellState) : CellState :=
  if err < 1 / 20 * max_err_init then { c with coarsen := true } else c

/-- The whole per-cell body of the flag-adjustment loop (source lines
271-286), in source order: level clamp, then refine suppression, then
forced coarsening. -/
def adapt_mesh_flags (min_level max_level : ℤ) (max_err_init err : ℚ)
    (c : CellState) : CellState :=
  force_coarsen max_err_init err
    (suppress_refine max_err_init err (clamp_level_flags min_level max_level c))

/-- The `linfty_norm()` of a deal.II vector: the maximum absolute value of
its entries (0 for the empty vector), as used at source line 597; the
`Utilities::MPI::max` reduction is the identity on the single-rank model. -/
def linfty_norm (v : List ℚ) : ℚ :=
  v.foldl (fun a x => max a |x|) 0

/-- The pre-refinement loop of `run()` (source lines 584-599): while
`n_refinements_left > 0` do one adapt/project pass and decrement; in the
iteration where the counter reaches zero, estimate the error once more and
capture `maximal_cellwise_error_init` as the infinity norm of that vector.
The mesh and solution evolution is external; `lastVec` stands for the
error-indicator vector estimated after the final pass.  Returns the final
value of `maximal_cellwise_error_init` (initially `m`, set to -1 by the
constructor) together with the list of values captured, in order. -/
def pre_refinement_loop (lastVec : List ℚ) : ℕ → ℚ → ℚ × List ℚ
  | 0, m => (m, [])
  | n + 1, m =>
    if n = 0 then
      let c := linfty_norm lastVec
      let rest := pre_refinement_loop lastVec n c
      (rest.1, rest.2 ++ [c])
    else pre_refinement_loop lastVec n m

/-! ## The mesh-rebuild event order of `adapt_mesh` (source lines 256-315) -/

/-- The externally visible operations of one `adapt_mesh()` call, in the
order relevant to claim C8.  `read_state_old_indexing` stands for any read
of the state vector through the pre-adaptation DoF indexing; the code
performs none after the rebuild begins, so the event never occurs in the
trace. -/
inductive AdaptEvent where
  | estimate_error
  | set_refinement_indicators
  | adjust_flags
  | prepare_coarsening_and_refinement
  | prepare_snapshot
  | execute_refinement
  | make_dofs
  | interpolate_snapshot
  | set_time_step_update
  | read_state_old_indexing
deriving DecidableEq

/-- The sequence of operations `adapt_mesh()` performs (source lines
256-315; both the p4est and the serial branch order the rebuild the same
way): estimate the indicator, mark cells, adjust flags, prepare the
triangulation, snapshot the state vector into the solution transfer,
execute coarsening/refinement, rebuild the DoF structures (`make_dofs`),
interpolate the snapshot onto the new indexing, and finally recompute the
time-step size and hand it to TimeControl (line 314). -/
def adapt_mesh_trace : List AdaptEvent :=
  [.estimate_error, .set_refinement_indicators, .adjust_flags,
   .prepare_coarsening_and_refinement, .prepare_snapshot, .execute_refinement,
   .make_dofs, .interpolate_snapshot, .set_time_step_update]

/-! ## The CFL search `run_cfl_stability_analysis` (source lines 695-755) -/

/-- Search state of `run_cfl_stability_analysis`: the current candidate
`cfl_test` (which is also written back into `parameters_in.cfl_number` at
the end of every iteration, line 743), the two bounds with their sentinel
initializations `-0.1` and `100.0` (lines 700-701), and — for bookkeeping —
the list of candidates at which a full simulation has been run, in order. -/
structure SearchState where
  cfl_test : ℚ
  closest_stable : ℚ
  closest_instable : ℚ
  tested : List ℚ
deriving DecidableEq

/-- Source lines 699-701: the candidate starts at `parameters_in.cfl_number`,
the bounds at their sentinels. -/
def searchInit (cfl0 : ℚ) : SearchState :=
  ⟨cfl0, -(1 / 10), 100, []⟩

/-- Source lines 731-741: the next candidate.  `dfac` stands for
`std::pow(parameters_in.fe_degree, 1.5)`; `cs`, `ci` are the bounds after
this iteration's update. -/
def next_candidate (dfac c cs ci : ℚ) : ℚ :=
  if cs < 0 then
    (if 3 / 20 < c / dfac then c - 1 / 10 else c / 3)
  else if 99 < ci then c + 1 / 20
  else (ci + cs) / 2

/-- One iteration of the search loop (source lines 703-744): run the
simulation at `cfl_test` (the verdict is the oracle bit `stable`), record
the candidate in exactly one bound (lines 726-729), then compute the next
candidate (lines 731-741), which is also written back into
`parameters_in.cfl_number` (line 743). -/
def searchStep (dfac : ℚ) (stable : Bool) (s : SearchState) : SearchState :=
  ⟨next_candidate dfac s.cfl_test
      (if stable then s.cfl_test else s.closest_stable)
      (if stable then s.closest_instable else s.cfl_test),
   if stable then s.cfl_test else s.closest_stable,
   if stable then s.closest_instable else s.cfl_test,
   s.tested ++ [s.cfl_test]⟩

/-- The state after `k` iterations of the loop, starting from
`parameters_in.cfl_number = cfl0`; the oracle `o j` is the verdict
`cfl_stable()` of the full simulation run of iteration `j`. -/
def searchRun (dfac : ℚ) (o : ℕ → Bool) (cfl0 : ℚ) : ℕ → SearchState
  | 0 => searchInit cfl0
  | k + 1 => searchStep dfac (o k) (searchRun dfac o cfl0 k)

/-- The loop runs exactly 12 iterations (source line 703); afterwards
`parameters_in.cfl_number` holds the candidate computed at the end of the
12th iteration (last write at line 743). -/
def final_cfl_number (dfac : ℚ) (o : ℕ → Bool) (cfl0 : ℚ) : ℚ :=
  (searchRun dfac o cfl0 12).cfl_test

/-- The three numbers of the final report (source lines 746-751). -/
structure CflReport where
  instable_scaled : ℚ
  stable_scaled : ℚ
  middle_scaled : ℚ
deriving DecidableEq

/-- Source lines 748-750: the report prints `closest_instable` and
`closest_stable` scaled by `dfac = degree^1.5`, and as the middle estimate
`(cfl_closest_instable + cfl_closest_instable) * dfac / 2` — the instable
bound combined with itself. -/
def final_report (dfac : ℚ) (s : SearchState) : CflReport :=
  ⟨s.closest_instable * dfac, s.closest_stable * dfac,
   (s.closest_instable + s.closest_instable) * dfac / 2⟩

/-- The verdict history `o 0, …, o (k-1)` contains no stable run. -/
def noStableYetB (o : ℕ → Bool) (k : ℕ) : Bool :=
  (List.range k).all (fun j => !(o j))

/-- The verdict history `o 0, …, o (k-1)` contains no unstable run. -/
def allStableB (o : ℕ → Bool) (k : ℕ) : Bool :=
  (List.range k).all (fun j => o j)

/-! ## Helper lemmas about the monitor -/

theorem runMonitor_cons (p : ℚ × ℚ) (t : List (ℚ × ℚ)) (r : StabilityRecord) :
    runMonitor (p :: t) r = runMonitor t (observe_output r p.1 p.2) := rfl

theorem runMonitor_append (l1 l2 : List (ℚ × ℚ)) (r : StabilityRecord) :
    runMonitor (l1 ++ l2) r = runMonitor l2 (runMonitor l1 r) := by
  simp [runMonitor, List.foldl_append]

theorem observe_output_last (r : StabilityRecord) (a b : ℚ) :
    (observe_output r a b).last_error = a := by
  simp only [observe_output]
  split <;> rfl

theorem observe_output_first_nonneg (r : StabilityRecord) (a b : ℚ)
    (h : 0 ≤ r.first_error) :
    (observe_output r a b).first_error = r.first_error ∧
    (observe_output r a b).first_magnitude = r.first_magnitude := by
  simp only [observe_output]
  rw [if_neg (not_lt.mpr h)]
  exact ⟨rfl, rfl⟩

theorem runMonitor_first_nonneg (obs : List (ℚ × ℚ)) (r : StabilityRecord)
    (h : 0 ≤ r.first_error) :
    (runMonitor obs r).first_error = r.first_error ∧
    (runMonitor obs r).first_magnitude = r.first_magnitude := by
  induction obs generalizing r with
  | nil => exact ⟨rfl, rfl⟩
  | cons p t ih =>
    rw [runMonitor_cons]
    have h1 := observe_output_first_nonneg r p.1 p.2 h
    have h0 : 0 ≤ (observe_output r p.1 p.2).first_error := by rw [h1.1]; exact h
    have h2 := ih (observe_output r p.1 p.2) h0
    exact ⟨h2.1.trans h1.1, h2.2.trans h1.2⟩

theorem observe_output_initial (m0 l0 e m : ℚ) :
    observe_output (initialRecord m0 l0) e m = ⟨e, m, e⟩ := by
  simp only [observe_output, initialRecord]
  norm_num

/-! ## Claim C1 -/

/-- C1: the stability verdict is divergent exactly when
`last_error > 100 × first_error` or `last_error > 1.5 × first_magnitude`
(`cfl_stable` returns the negation of this disjunction), and on the
synthetic observation sequence [1, 2, 150] with first magnitude 10 the
verdict becomes divergent exactly at the third observation and not
before. -/
theorem claim1_divergence_verdict :
    (∀ r : StabilityRecord,
      cfl_stable r = true ↔
        ¬(100 * r.first_error < r.last_error ∨
          3 / 2 * r.first_magnitude < r.last_error)) ∧
    (∀ m0 l0 : ℚ,
      divergentB (runMonitor [(1, 10)] (initialRecord m0 l0)) = false ∧
      divergentB (runMonitor [(1, 10), (2, 10)] (initialRecord m0 l0)) = false ∧
      divergentB (runMonitor [(1, 10), (2, 10), (150, 10)] (initialRecord m0 l0)) = true) := by
  constructor
  · intro r
    simp [cfl_stable, divergentB, not_or]
  · intro m0 l0
    have h1 : runMonitor [((1 : ℚ), (10 : ℚ))] (initialRecord m0 l0) = ⟨1, 10, 1⟩ := by
      rw [runMonitor_cons, observe_output_initial]; rfl
    have h2 : runMonitor [((1 : ℚ), (10 : ℚ)), (2, 10)] (initialRecord m0 l0) = ⟨1, 10, 2⟩ := by
      rw [runMonitor_cons, observe_output_initial]
      norm_num [runMonitor, observe_output]
    have h3 : runMonitor [((1 : ℚ), (10 : ℚ)), (2, 10), (150, 10)] (initialRecord m0 l0) =
        ⟨1, 10, 150⟩ := by
      rw [runMonitor_cons, observe_output_initial]
      norm_num [runMonitor, observe_output]
    rw [h1, h2, h3]
    refine ⟨?_, ?_, ?_⟩ <;> norm_num [divergentB]

/-! ## Claim C6 -/

/-- C6: within a run, `first_error` and `first_magnitude` are latched
together at the first output evaluation — via the sentinel
`first_error_val = -1.0` set at construction — and keep that value through
every later output evaluation, while `last_error` is overwritten at every
output evaluation. -/
theorem claim6_latch_once (e m m0 l0 : ℚ) (obs : List (ℚ × ℚ)) (he : 0 ≤ e) :
    (initialRecord m0 l0).first_error = -1 ∧
    (runMonitor ((e, m) :: obs) (initialRecord m0 l0)).first_error = e ∧
    (runMonitor ((e, m) :: obs) (initialRecord m0 l0)).first_magnitude = m ∧
    ∀ (l : List (ℚ × ℚ)) (p : ℚ × ℚ) (r : StabilityRecord),
      (runMonitor (l ++ [p]) r).last_error = p.1 := by
  refine ⟨rfl, ?_, ?_, ?_⟩
  · rw [runMonitor_cons, observe_output_initial]
    exact (runMonitor_first_nonneg obs ⟨e, m, e⟩ he).1
  · rw [runMonitor_cons, observe_output_initial]
    exact (runMonitor_first_nonneg obs ⟨e, m, e⟩ he).2
  · intro l p r
    rw [runMonitor_append]
    exact observe_output_last (runMonitor l r) p.1 p.2

/-- Witness for C6 at the concrete first observation (1, 10). -/
theorem claim6_witness :
    (0 : ℚ) ≤ 1 ∧
    (runMonitor [((1 : ℚ), (10 : ℚ))] (initialRecord 0 0)).first_error = 1 := by
  have h := claim6_latch_once 1 10 0 0 [] (by norm_num)
  exact ⟨by norm_num, h.2.1⟩

/-! ## Claim C10 -/

/-- C10: at the first output evaluation of a run, `last_error` equals
`first_error` (both latched from the same value), so the
`100 × first_error` branch of the divergence condition cannot fire there;
the clock is forced to `final_time` at the very first output tick exactly
when `first_error > 1.5 × first_magnitude`. -/
theorem claim10_first_observation (m0 l0 err mag : ℚ) (tc : TimeControl)
    (he : 0 ≤ err) :
    (output_results true err mag (initialRecord m0 l0) tc).1.last_error =
      (output_results true err mag (initialRecord m0 l0) tc).1.first_error ∧
    ¬(100 * (output_results true err mag (initialRecord m0 l0) tc).1.first_error <
        (output_results true err mag (initialRecord m0 l0) tc).1.last_error) ∧
    (divergentB (observe_output (initialRecord m0 l0) err mag) = true ↔
      3 / 2 * mag < err) ∧
    (output_results true err mag (initialRecord m0 l0) tc).2 =
      (if 3 / 2 * mag < err then tc.set_time tc.final_time else tc) := by
  have h100 : ¬(100 * err < err) := by linarith
  have hdiv : divergentB (⟨err, mag, err⟩ : StabilityRecord) =
      decide (3 / 2 * mag < err) := by
    simp [divergentB, h100]
  have hout : output_results true err mag (initialRecord m0 l0) tc =
      (⟨err, mag, err⟩,
        if 3 / 2 * mag < err then tc.set_time tc.final_time else tc) := by
    simp only [output_results, observe_output_initial, hdiv]
    by_cases h : 3 / 2 * mag < err <;> simp [h]
  rw [hout]
  refine ⟨rfl, h100, ?_, rfl⟩
  rw [observe_output_initial, hdiv]
  simp

/-- Witness for C10 at the concrete first observation err = 10, mag = 1. -/
theorem claim10_witness :
    (0 : ℚ) ≤ 10 ∧
    (divergentB (observe_output (initialRecord 0 0) 10 1) = true ↔
      3 / 2 * 1 < (10 : ℚ)) := by
  have h := claim10_first_observation 0 0 10 1 ⟨0, 0, 1, 5, 3⟩ (by norm_num)
  exact ⟨by norm_num, h.2.2.1⟩

theorem output_results_frame (a : Bool) (e m : ℚ) (r : StabilityRecord)
    (tc : TimeControl) :
    (output_results a e m r tc).2.step_number = tc.step_number ∧
    (output_results a e m r tc).2.max_steps = tc.max_steps := by
  simp only [output_results]
  split_ifs <;> simp [TimeControl.set_time]

/-! ## Claim C5 -/

/-- C5: when the divergence condition holds at an output evaluation with
`cfl_stability_analysis` set, the driver sets the clock to `final_time`, so
`done()` becomes true, and the run drains to the finished state: the time
loop, given enough fuel (each iteration increments `step_number`, bounded
by `max_steps`), always returns normally with `done() = true` — divergence
is a state change, never an error. -/
theorem claim5_divergence_clean_termination :
    (∀ (r : StabilityRecord) (tc : TimeControl) (err mag : ℚ),
        divergentB (observe_output r err mag) = true →
        (output_results true err mag r tc).2.current_time = tc.final_time ∧
        (output_results true err mag r tc).2.done = true) ∧
    (∀ (analysis : Bool) (tickFn : TimeControl → Bool) (errs mags : ℕ → ℚ)
        (fuel : ℕ) (d : StabilityRecord × TimeControl),
        d.2.max_steps ≤ d.2.step_number + fuel →
        (driver_loop analysis tickFn errs mags fuel d).2.done = true) := by
  constructor
  · intro r tc err mag h
    simp only [output_results, if_pos rfl, h, if_true]
    constructor
    · rfl
    · simp [TimeControl.done, TimeControl.set_time]
  · intro analysis tickFn errs mags fuel
    induction fuel with
    | zero =>
      intro d h
      simp only [driver_loop]
      simp only [Nat.add_zero] at h
      simp [TimeControl.done, h]
    | succ n ih =>
      intro d h
      rw [driver_loop]
      by_cases hd : d.2.done = true
      · rw [if_pos hd]; exact hd
      · rw [if_neg hd]
        apply ih
        by_cases ht : tickFn (d.2.advance_time_step) = true
        · simp only [ht, if_true]
          have hs := output_results_frame analysis
            (errs (d.2.advance_time_step).step_number)
            (mags (d.2.advance_time_step).step_number) d.1 d.2.advance_time_step
          rw [hs.1, hs.2]
          simp only [TimeControl.advance_time_step]
          omega
        · simp only [ht, if_false, Bool.false_eq_true]
          simp only [TimeControl.advance_time_step]
          omega

/-- Witness for C5: a concrete divergent first observation forces the clock
to `final_time`. -/
theorem claim5_witness :
    divergentB (observe_output (initialRecord 0 0) 10 1) = true ∧
    (output_results true 10 1 (initialRecord 0 0) ⟨0, 0, 1, 5, 3⟩).2.current_time = 5 := by
  have hdiv : divergentB (observe_output (initialRecord 0 0) 10 1) = true := by
    rw [observe_output_initial]
    norm_num [divergentB]
  have h := (claim5_divergence_clean_termination.1 (initialRecord 0 0)
    ⟨0, 0, 1, 5, 3⟩ 10 1 hdiv).1
  exact ⟨hdiv, h⟩

/-! ## Claim C2 -/

/-- C2 counterexample: a cell already at `min_level = 0`, unflagged, with
error indicator 0 below `0.05 × maximal_cellwise_error_init = 1/20`,
leaves the flag-adjustment pass carrying a coarsen flag: the forced-coarsen
test (source lines 283-285) runs after the min-level clamp (lines 277-278),
so the pass does not establish "no coarsen flag on a cell at min_level". -/
theorem claim2_counterexample :
    (adapt_mesh_flags 0 2 1 0 ⟨0, false, false⟩).coarsen = true ∧
    (adapt_mesh_flags 0 2 1 0 ⟨0, false, false⟩).level = 0 := by
  norm_num [adapt_mesh_flags, clamp_level_flags, suppress_refine, force_coarsen]

/-- C2 (amended): after the flag-adjustment pass no cell at `max_level`
carries a refine flag; a cell at `min_level` carries a coarsen flag only
through the forced-coarsen path, i.e. only when its indicator is below
`0.05 × maximal_cellwise_error_init` (so the min-level clamp alone does not
prevent coarsen flags on min-level cells). -/
theorem claim2_flag_clamp (min_level max_level : ℤ) (m e : ℚ) (c : CellState)
    (hlev : min_level < max_level) :
    ((adapt_mesh_flags min_level max_level m e c).refine = true →
      c.level ≠ max_level) ∧
    ((adapt_mesh_flags min_level max_level m e c).coarsen = true →
      c.level = min_level → e < 1 / 20 * m) := by
  unfold adapt_mesh_flags clamp_level_flags suppress_refine force_coarsen
  split_ifs <;> simp_all
  omega

/-- Witness for C2 (amended) at a concrete refine-flagged max-level cell. -/
theorem claim2_witness :
    (0 : ℤ) < 2 ∧
    ((adapt_mesh_flags 0 2 1 1 ⟨2, true, false⟩).refine = true → (2 : ℤ) ≠ 2) := by
  exact ⟨by decide, (claim2_flag_clamp 0 2 1 1 ⟨2, true, false⟩ (by decide)).1⟩

/-! ## Claim C7 -/

theorem force_coarsen_refine (m e : ℚ) (c : CellState) :
    (force_coarsen m e c).refine = c.refine := by
  simp only [force_coarsen]; split <;> rfl

theorem suppress_refine_clears (m e : ℚ) (c : CellState) (h : e < 1 / 10 * m) :
    (suppress_refine m e c).refine = false := by
  simp only [suppress_refine]
  split_ifs with hx
  · rfl
  · cases hxr : c.refine
    · rfl
    · exact absurd ⟨hxr, h⟩ hx

theorem pre_refinement_loop_pos (lastVec : List ℚ) (N : ℕ) (m : ℚ) (h : 0 < N) :
    pre_refinement_loop lastVec N m =
      (linfty_norm lastVec, [linfty_norm lastVec]) := by
  induction N generalizing m with
  | zero => exact absurd h (by omega)
  | succ n ih =>
    rw [pre_refinement_loop]
    by_cases hn : n = 0
    · subst hn
      simp [pre_refinement_loop]
    · rw [if_neg hn]
      exact ih m (Nat.pos_of_ne_zero hn)

/-- C7: in the flag-adjustment pass a cell whose indicator is below
`0.1 × maximal_cellwise_error_init` never keeps a refine flag, and a cell
whose indicator is below `0.05 × maximal_cellwise_error_init` always ends
with a coarsen flag; and the pre-refinement loop of `run()` captures
`maximal_cellwise_error_init` exactly once — after the last pre-refinement
pass — as the infinity norm of the error-indicator vector (and never when
there are zero passes). -/
theorem claim7_thresholds_and_capture (min_level max_level : ℤ) (m e : ℚ)
    (c : CellState) (lastVec : List ℚ) (m0 : ℚ) (N : ℕ) (hN : 0 < N) :
    (e < 1 / 10 * m → (adapt_mesh_flags min_level max_level m e c).refine = false) ∧
    (e < 1 / 20 * m → (adapt_mesh_flags min_level max_level m e c).coarsen = true) ∧
    pre_refinement_loop lastVec N m0 =
      (linfty_norm lastVec, [linfty_norm lastVec]) ∧
    pre_refinement_loop lastVec 0 m0 = (m0, []) := by
  refine ⟨?_, ?_, pre_refinement_loop_pos lastVec N m0 hN, rfl⟩
  · intro h
    unfold adapt_mesh_flags
    rw [force_coarsen_refine]
    exact suppress_refine_clears m e _ h
  · intro h
    unfold adapt_mesh_flags force_coarsen
    rw [if_pos h]

/-- Witness for C7 with one pre-refinement pass over the vector [3, -4]. -/
theorem claim7_witness :
    (0 : ℕ) < 1 ∧
    pre_refinement_loop [(3 : ℚ), -4] 1 (-1) =
      (linfty_norm [(3 : ℚ), -4], [linfty_norm [(3 : ℚ), -4]]) := by
  exact ⟨by decide,
    (claim7_thresholds_and_capture 0 1 1 0 ⟨0, false, false⟩ [(3 : ℚ), -4] (-1) 1
      (by decide)).2.2.1⟩

/-! ## Claim C8 -/

/-- C8: every mesh adaptation orders its rebuild as: snapshot the
pre-refinement state into the solution transfer, execute
coarsening/refinement, re-derive the DoF indexing (`make_dofs`),
interpolate the snapshot onto the new indexing, and finally recompute the
time-step size for TimeControl; and no read of the state vector through the
pre-adaptation indexing occurs anywhere in the trace (in particular not
after the rebuild begins). -/
theorem claim8_rebuild_order :
    adapt_mesh_trace.indexOf .prepare_snapshot <
      adapt_mesh_trace.indexOf .execute_refinement ∧
    adapt_mesh_trace.indexOf .execute_refinement <
      adapt_mesh_trace.indexOf .make_dofs ∧
    adapt_mesh_trace.indexOf .make_dofs <
      adapt_mesh_trace.indexOf .interpolate_snapshot ∧
    adapt_mesh_trace.indexOf .interpolate_snapshot <
      adapt_mesh_trace.indexOf .set_time_step_update ∧
    AdaptEvent.read_state_old_indexing ∉ adapt_mesh_trace := by
  decide

/-! ## Claim C3 -/

/-- C3: the final report of the CFL search prints the last recorded
`closest_instable` and `closest_stable` each scaled by `degree^1.5`, and
its middle estimate is `(closest_instable + closest_instable) × degree^1.5 / 2`
— the instable bound combined with itself, which equals
`closest_instable × degree^1.5` and differs from the midpoint with the
stable bound whenever the two bounds differ. -/
theorem claim3_report_middle (dfac : ℚ) (s : SearchState)
    (hne : s.closest_stable ≠ s.closest_instable) (hd : dfac ≠ 0) :
    (final_report dfac s).instable_scaled = s.closest_instable * dfac ∧
    (final_report dfac s).stable_scaled = s.closest_stable * dfac ∧
    (final_report dfac s).middle_scaled =
      (s.closest_instable + s.closest_instable) * dfac / 2 ∧
    (final_report dfac s).middle_scaled = s.closest_instable * dfac ∧
    (final_report dfac s).middle_scaled ≠
      (s.closest_instable + s.closest_stable) * dfac / 2 := by
  refine ⟨rfl, rfl, rfl, ?_, ?_⟩
  · show (s.closest_instable + s.closest_instable) * dfac / 2 = s.closest_instable * dfac
    ring
  · show (s.closest_instable + s.closest_instable) * dfac / 2 ≠
      (s.closest_instable + s.closest_stable) * dfac / 2
    intro h
    have h2 : (s.closest_instable + s.closest_instable) * dfac =
        (s.closest_instable + s.closest_stable) * dfac := by linarith
    have h3 := mul_right_cancel₀ hd h2
    exact hne (by linarith)

/-- Witness for C3 with stable bound 1, instable bound 2, scaling 1. -/
theorem claim3_witness :
    ((1 : ℚ) ≠ 2) ∧ ((1 : ℚ) ≠ 0) ∧
    (final_report 1 ⟨0, 1, 2, []⟩).middle_scaled ≠ (2 + 1) * 1 / 2 := by
  exact ⟨by decide, by decide,
    (claim3_report_middle 1 ⟨0, 1, 2, []⟩ (by decide) (by decide)).2.2.2.2⟩

/-! ## Invariants of the CFL search loop -/

theorem searchStep_tested (dfac : ℚ) (b : Bool) (s : SearchState) :
    (searchStep dfac b s).tested = s.tested ++ [s.cfl_test] := rfl

theorem searchStep_cs (dfac : ℚ) (b : Bool) (s : SearchState) :
    (searchStep dfac b s).closest_stable =
      (if b then s.cfl_test else s.closest_stable) := rfl

theorem searchStep_ci (dfac : ℚ) (b : Bool) (s : SearchState) :
    (searchStep dfac b s).closest_instable =
      (if b then s.closest_instable else s.cfl_test) := rfl

theorem searchStep_cfl (dfac : ℚ) (b : Bool) (s : SearchState) :
    (searchStep dfac b s).cfl_test =
      next_candidate dfac s.cfl_test (searchStep dfac b s).closest_stable
        (searchStep dfac b s).closest_instable := rfl

theorem next_candidate_decay (dfac c ci : ℚ) :
    next_candidate dfac c (-(1 / 10)) ci =
      (if 3 / 20 < c / dfac then c - 1 / 10 else c / 3) := by
  unfold next_candidate
  rw [if_pos (by norm_num)]

theorem next_candidate_up {cs ci : ℚ} (dfac c : ℚ) (hcs : 0 ≤ cs) (hci : 99 < ci) :
    next_candidate dfac c cs ci = c + 1 / 20 := by
  unfold next_candidate
  rw [if_neg (not_lt.mpr hcs), if_pos hci]

theorem next_candidate_mid {cs ci : ℚ} (dfac c : ℚ) (hcs : 0 ≤ cs) (hci : ¬99 < ci) :
    next_candidate dfac c cs ci = (ci + cs) / 2 := by
  unfold next_candidate
  rw [if_neg (not_lt.mpr hcs), if_neg hci]

theorem decay_pos {dfac c : ℚ} (hd : 1 ≤ dfac) (hc : 0 < c) :
    0 < (if 3 / 20 < c / dfac then c - 1 / 10 else c / 3) := by
  split_ifs with h
  · rw [lt_div_iff₀ (by linarith : (0 : ℚ) < dfac)] at h
    linarith
  · linarith

theorem decay_lt (dfac : ℚ) {c : ℚ} (hc : 0 < c) :
    (if 3 / 20 < c / dfac then c - 1 / 10 else c / 3) < c := by
  split_ifs with h
  · linarith
  · linarith

/-- Candidate bound: a candidate seen within the first `k` iterations is
positive and at most `cfl0 + k/20` (one iteration raises the candidate by at
most `1/20`). -/
def CandBound (cfl0 : ℚ) (k : ℕ) (x : ℚ) : Prop :=
  0 < x ∧ x ≤ cfl0 + (k : ℚ) / 20

theorem CandBound.mono {cfl0 : ℚ} {k k' : ℕ} {x : ℚ} (h : CandBound cfl0 k x)
    (hk : k ≤ k') : CandBound cfl0 k' x := by
  refine ⟨h.1, h.2.trans ?_⟩
  have hq : (k : ℚ) ≤ (k' : ℚ) := by exact_mod_cast hk
  linarith

/-- Phase of the search in which no run has been stable yet:
`closest_stable` still holds its sentinel, the candidates tested so far
strictly decrease (the current one below all of them), and
`closest_instable` is either still its sentinel (no run yet) or the least
candidate tested. -/
def PhaseD (o : ℕ → Bool) (k : ℕ) (s : SearchState) : Prop :=
  s.closest_stable = -(1 / 10) ∧ (∀ j < k, o j = false) ∧
  (∀ x ∈ s.tested, s.cfl_test < x) ∧
  ((s.tested = [] ∧ s.closest_instable = 100) ∨
    (s.closest_instable ∈ s.tested ∧ ∀ x ∈ s.tested, s.closest_instable ≤ x))

/-- Phase in which every run so far was stable: `closest_instable` still
holds its sentinel, `closest_stable` is the largest candidate tested, and
the current candidate lies above all tested ones. -/
def PhaseI (o : ℕ → Bool) (k : ℕ) (s : SearchState) : Prop :=
  s.closest_stable ∈ s.tested ∧ (∀ j < k, o j = true) ∧
  s.closest_instable = 100 ∧
  (∀ x ∈ s.tested, x ≤ s.closest_stable) ∧ s.closest_stable < s.cfl_test

/-- Bracketing phase: both verdicts have occurred, the bounds are tested
candidates bracketing the current candidate strictly, and every tested
candidate lies outside the open bracket. -/
def PhaseM (o : ℕ → Bool) (k : ℕ) (s : SearchState) : Prop :=
  s.closest_stable ∈ s.tested ∧ s.closest_instable ∈ s.tested ∧
  (∃ j < k, o j = true) ∧ (∃ j < k, o j = false) ∧
  s.closest_stable < s.cfl_test ∧ s.cfl_test < s.closest_instable ∧
  (∀ x ∈ s.tested, x ≤ s.closest_stable ∨ s.closest_instable ≤ x)

/-- Loop invariant of `run_cfl_stability_analysis` after `k` iterations. -/
def SearchInv (cfl0 : ℚ) (o : ℕ → Bool) (k : ℕ) (s : SearchState) : Prop :=
  s.tested.length = k ∧
  (∀ x ∈ s.tested, CandBound cfl0 k x) ∧
  CandBound cfl0 k s.cfl_test ∧
  (PhaseD o k s ∨ PhaseI o k s ∨ PhaseM o k s)

theorem SearchInv_zero (cfl0 : ℚ) (o : ℕ → Bool) (h0 : 0 < cfl0) :
    SearchInv cfl0 o 0 (searchInit cfl0) := by
  refine ⟨rfl, ?_, ⟨h0, by norm_num [searchInit]⟩, Or.inl ⟨rfl, ?_, ?_, Or.inl ⟨rfl, rfl⟩⟩⟩
  · intro x hx
    exact absurd hx (List.not_mem_nil x)
  · intro j hj
    exact absurd hj (Nat.not_lt_zero j)
  · intro x hx
    exact absurd hx (List.not_mem_nil x)

/-- One iteration of the CFL search preserves the loop invariant. -/
theorem SearchInv_step {cfl0 dfac : ℚ} {o : ℕ → Bool} {k : ℕ} {s : SearchState}
    (h98 : cfl0 ≤ 98) (hd : 1 ≤ dfac) (hk : k < 12)
    (hI : SearchInv cfl0 o k s) :
    SearchInv cfl0 o (k + 1) (searchStep dfac (o k) s) := by
  obtain ⟨hlen, hbnd, hc, hphase⟩ := hI
  have hk11 : (k : ℚ) ≤ 11 := by exact_mod_cast Nat.lt_succ_iff.mp hk
  have hc99 : s.cfl_test < 99 := lt_of_le_of_lt hc.2 (by linarith)
  have hb99 : ∀ x ∈ s.tested, x < 99 := fun x hx =>
    lt_of_le_of_lt (hbnd x hx).2 (by linarith)
  have hbpos : ∀ x ∈ s.tested, 0 < x := fun x hx => (hbnd x hx).1
  have hmem : ∀ x : ℚ, x ∈ s.tested ++ [s.cfl_test] ↔ x ∈ s.tested ∨ x = s.cfl_test := by
    intro x
    simp [List.mem_append]
  have hlen' : (searchStep dfac (o k) s).tested.length = k + 1 := by
    rw [searchStep_tested]
    simp [hlen]
  have hbnd' : ∀ x ∈ (searchStep dfac (o k) s).tested, CandBound cfl0 (k + 1) x := by
    rw [searchStep_tested]
    intro x hx
    rcases (hmem x).mp hx with h | h
    · exact (hbnd x h).mono (Nat.le_succ k)
    · exact h ▸ hc.mono (Nat.le_succ k)
  rcases hphase with hD | hI' | hM
  · -- no stable run so far
    rcases Bool.dichotomy (o k) with ho | ho
    · -- another unstable run: stay in the decreasing phase
      have hcs' : (searchStep dfac (o k) s).closest_stable = s.closest_stable := by rw [searchStep_cs, ho]; rfl
      have hci' : (searchStep dfac (o k) s).closest_instable = s.cfl_test := by rw [searchStep_ci, ho]; rfl
      have hnext : (searchStep dfac (o k) s).cfl_test =
          (if 3 / 20 < s.cfl_test / dfac then s.cfl_test - 1 / 10 else s.cfl_test / 3) := by
        rw [searchStep_cfl, hcs', hci', hD.1, next_candidate_decay]
      refine ⟨hlen', hbnd', ?_, ?_⟩
      · rw [hnext]
        refine ⟨decay_pos hd hc.1, ?_⟩
        have h1 := decay_lt dfac hc.1
        have h2 := hc.2
        push_cast
        linarith
      · left
        refine ⟨by rw [hcs', hD.1], ?_, ?_, Or.inr ⟨?_, ?_⟩⟩
        · intro j hj
          rcases Nat.lt_succ_iff_lt_or_eq.mp hj with h | h
          · exact hD.2.1 j h
          · subst h; exact ho
        · rw [searchStep_tested, hnext]
          intro x hx
          rcases (hmem x).mp hx with h | h
          · exact lt_trans (decay_lt dfac hc.1) (hD.2.2.1 x h)
          · subst h; exact decay_lt dfac hc.1
        · rw [searchStep_tested, hci']
          exact (hmem _).mpr (Or.inr rfl)
        · rw [searchStep_tested, hci']
          intro x hx
          rcases (hmem x).mp hx with h | h
          · exact le_of_lt (hD.2.2.1 x h)
          · subst h; exact le_refl _
    · -- first stable run
      have hcs' : (searchStep dfac (o k) s).closest_stable = s.cfl_test := by rw [searchStep_cs, ho]; rfl
      have hci' : (searchStep dfac (o k) s).closest_instable = s.closest_instable := by
        rw [searchStep_ci, ho]; rfl
      rcases hD.2.2.2 with ⟨htE, hci100⟩ | ⟨hciT, hcimin⟩
      · -- nothing tested yet: switch to the all-stable phase
        have hk0 : k = 0 := by
          rw [htE] at hlen
          simpa using hlen.symm
        have hnext : (searchStep dfac (o k) s).cfl_test = s.cfl_test + 1 / 20 := by
          rw [searchStep_cfl, hcs', hci', hci100]
          exact next_candidate_up dfac s.cfl_test (le_of_lt hc.1) (by norm_num)
        refine ⟨hlen', hbnd', ?_, ?_⟩
        · rw [hnext]
          refine ⟨by linarith [hc.1], ?_⟩
          have h2 := hc.2
          push_cast
          linarith
        · right; left
          refine ⟨?_, ?_, by rw [hci', hci100], ?_, ?_⟩
          · rw [searchStep_tested, hcs']
            exact (hmem _).mpr (Or.inr rfl)
          · intro j hj
            have hjk : j = k := by omega
            subst hjk
            exact ho
          · rw [searchStep_tested, hcs', htE]
            intro x hx
            simp at hx
            subst hx
            exact le_refl _
          · rw [hnext, hcs']
            linarith
      · -- an instable bound exists already: switch to bracketing
        have hciv : s.closest_instable < 99 := hb99 _ hciT
        have hlt : s.cfl_test < s.closest_instable := hD.2.2.1 _ hciT
        have hnext : (searchStep dfac (o k) s).cfl_test =
            (s.closest_instable + s.cfl_test) / 2 := by
          rw [searchStep_cfl, hcs', hci']
          exact next_candidate_mid dfac s.cfl_test (le_of_lt hc.1) (by linarith)
        have hkpos : 0 < k :=
          hlen ▸ List.length_pos.mpr (List.ne_nil_of_mem hciT)
        refine ⟨hlen', hbnd', ?_, ?_⟩
        · rw [hnext]
          constructor
          · linarith [hc.1]
          · have h2 := (hbnd _ hciT).2
            push_cast
            linarith
        · right; right
          refine ⟨?_, ?_, ⟨k, Nat.lt_succ_self k, ho⟩,
            ⟨0, by omega, hD.2.1 0 hkpos⟩, ?_, ?_, ?_⟩
          · rw [searchStep_tested, hcs']
            exact (hmem _).mpr (Or.inr rfl)
          · rw [searchStep_tested, hci']
            exact (hmem _).mpr (Or.inl hciT)
          · rw [hnext, hcs']
            linarith
          · rw [hnext, hci']
            linarith
          · rw [searchStep_tested, hcs', hci']
            intro x hx
            rcases (hmem x).mp hx with h | h
            · exact Or.inr (hcimin x h)
            · subst h; exact Or.inl (le_refl _)
  · -- every run so far stable
    obtain ⟨hcsT, hallT, hci100, hmax, hlt⟩ := hI'
    have hkpos : 0 < k :=
      hlen ▸ List.length_pos.mpr (List.ne_nil_of_mem hcsT)
    rcases Bool.dichotomy (o k) with ho | ho
    · -- first unstable run: switch to bracketing
      have hcs' : (searchStep dfac (o k) s).closest_stable = s.closest_stable := by rw [searchStep_cs, ho]; rfl
      have hci' : (searchStep dfac (o k) s).closest_instable = s.cfl_test := by rw [searchStep_ci, ho]; rfl
      have hcs0 : 0 < s.closest_stable := hbpos _ hcsT
      have hnext : (searchStep dfac (o k) s).cfl_test =
          (s.cfl_test + s.closest_stable) / 2 := by
        rw [searchStep_cfl, hcs', hci']
        exact next_candidate_mid dfac s.cfl_test (le_of_lt hcs0) (by linarith)
      refine ⟨hlen', hbnd', ?_, ?_⟩
      · rw [hnext]
        constructor
        · linarith
        · have h2 := hc.2
          push_cast
          linarith
      · right; right
        refine ⟨?_, ?_, ⟨0, by omega, hallT 0 hkpos⟩,
          ⟨k, Nat.lt_succ_self k, ho⟩, ?_, ?_, ?_⟩
        · rw [searchStep_tested, hcs']
          exact (hmem _).mpr (Or.inl hcsT)
        · rw [searchStep_tested, hci']
          exact (hmem _).mpr (Or.inr rfl)
        · rw [hnext, hcs']
          linarith
        · rw [hnext, hci']
          linarith
        · rw [searchStep_tested, hcs', hci']
          intro x hx
          rcases (hmem x).mp hx with h | h
          · exact Or.inl (hmax x h)
          · subst h; exact Or.inr (le_refl _)
    · -- another stable run: stay in the all-stable phase
      have hcs' : (searchStep dfac (o k) s).closest_stable = s.cfl_test := by rw [searchStep_cs, ho]; rfl
      have hci' : (searchStep dfac (o k) s).closest_instable = s.closest_instable := by
        rw [searchStep_ci, ho]; rfl
      have hnext : (searchStep dfac (o k) s).cfl_test = s.cfl_test + 1 / 20 := by
        rw [searchStep_cfl, hcs', hci', hci100]
        exact next_candidate_up dfac s.cfl_test (le_of_lt hc.1) (by norm_num)
      refine ⟨hlen', hbnd', ?_, ?_⟩
      · rw [hnext]
        refine ⟨by linarith [hc.1], ?_⟩
        have h2 := hc.2
        push_cast
        linarith
      · right; left
        refine ⟨?_, ?_, by rw [hci', hci100], ?_, ?_⟩
        · rw [searchStep_tested, hcs']
          exact (hmem _).mpr (Or.inr rfl)
        · intro j hj
          rcases Nat.lt_succ_iff_lt_or_eq.mp hj with h | h
          · exact hallT j h
          · subst h; exact ho
        · rw [searchStep_tested, hcs']
          intro x hx
          rcases (hmem x).mp hx with h | h
          · exact le_trans (hmax x h) (le_of_lt hlt)
          · subst h; exact le_refl _
        · rw [hnext, hcs']
          linarith
  · -- bracketing phase
    obtain ⟨hcsT, hciT, hex1, hex0, hlt1, hlt2, hout⟩ := hM
    have hciv : s.closest_instable < 99 := hb99 _ hciT
    have hcs0 : 0 < s.closest_stable := hbpos _ hcsT
    rcases Bool.dichotomy (o k) with ho | ho
    · -- unstable: the instable bound moves down to the candidate
      have hcs' : (searchStep dfac (o k) s).closest_stable = s.closest_stable := by rw [searchStep_cs, ho]; rfl
      have hci' : (searchStep dfac (o k) s).closest_instable = s.cfl_test := by rw [searchStep_ci, ho]; rfl
      have hnext : (searchStep dfac (o k) s).cfl_test =
          (s.cfl_test + s.closest_stable) / 2 := by
        rw [searchStep_cfl, hcs', hci']
        exact next_candidate_mid dfac s.cfl_test (le_of_lt hcs0) (by linarith)
      refine ⟨hlen', hbnd', ?_, ?_⟩
      · rw [hnext]
        constructor
        · linarith
        · have h2 := hc.2
          push_cast
          linarith
      · right; right
        obtain ⟨j, hj, hoj⟩ := hex1
        refine ⟨?_, ?_, ⟨j, by omega, hoj⟩, ⟨k, Nat.lt_succ_self k, ho⟩, ?_, ?_, ?_⟩
        · rw [searchStep_tested, hcs']
          exact (hmem _).mpr (Or.inl hcsT)
        · rw [searchStep_tested, hci']
          exact (hmem _).mpr (Or.inr rfl)
        · rw [hnext, hcs']
          linarith
        · rw [hnext, hci']
          linarith
        · rw [searchStep_tested, hcs', hci']
          intro x hx
          rcases (hmem x).mp hx with h | h
          · rcases hout x h with h1 | h1
            · exact Or.inl h1
            · exact Or.inr (le_trans (le_of_lt hlt2) h1)
          · subst h; exact Or.inr (le_refl _)
    · -- stable: the stable bound moves up to the candidate
      have hcs' : (searchStep dfac (o k) s).closest_stable = s.cfl_test := by rw [searchStep_cs, ho]; rfl
      have hci' : (searchStep dfac (o k) s).closest_instable = s.closest_instable := by
        rw [searchStep_ci, ho]; rfl
      have hnext : (searchStep dfac (o k) s).cfl_test =
          (s.closest_instable + s.cfl_test) / 2 := by
        rw [searchStep_cfl, hcs', hci']
        exact next_candidate_mid dfac s.cfl_test (le_of_lt hc.1) (by linarith)
      refine ⟨hlen', hbnd', ?_, ?_⟩
      · rw [hnext]
        constructor
        · linarith [hc.1]
        · have h2 := (hbnd _ hciT).2
          push_cast
          linarith
      · right; right
        obtain ⟨j, hj, hoj⟩ := hex0
        refine ⟨?_, ?_, ⟨k, Nat.lt_succ_self k, ho⟩, ⟨j, by omega, hoj⟩, ?_, ?_, ?_⟩
        · rw [searchStep_tested, hcs']
          exact (hmem _).mpr (Or.inr rfl)
        · rw [searchStep_tested, hci']
          exact (hmem _).mpr (Or.inl hciT)
        · rw [hnext, hcs']
          linarith
        · rw [hnext, hci']
          linarith
        · rw [searchStep_tested, hcs', hci']
          intro x hx
          rcases (hmem x).mp hx with h | h
          · rcases hout x h with h1 | h1
            · exact Or.inl (le_trans h1 (le_of_lt hlt1))
            · exact Or.inr h1
          · subst h; exact Or.inl (le_refl _)

/-- The invariant holds after every prefix of the 12 iterations. -/
theorem SearchInv_upto (cfl0 dfac : ℚ) (o : ℕ → Bool)
    (h0 : 0 < cfl0) (h98 : cfl0 ≤ 98) (hd : 1 ≤ dfac) :
    ∀ k, k ≤ 12 → SearchInv cfl0 o k (searchRun dfac o cfl0 k) := by
  intro k
  induction k with
  | zero =>
    intro _
    exact SearchInv_zero cfl0 o h0
  | succ n ih =>
    intro hn
    rw [searchRun]
    exact SearchInv_step h98 hd (by omega) (ih (by omega))

theorem noStableYetB_iff (o : ℕ → Bool) (k : ℕ) :
    noStableYetB o k = true ↔ ∀ j < k, o j = false := by
  simp [noStableYetB, List.all_eq_true, List.mem_range]

theorem allStableB_iff (o : ℕ → Bool) (k : ℕ) :
    allStableB o k = true ↔ ∀ j < k, o j = true := by
  simp [allStableB, List.all_eq_true, List.mem_range]

/-- After at least one iteration, the code's sentinel tests coincide with
genuine bound existence exactly as long as every tested candidate lies
strictly below 99: `closest_stable < 0` holds iff no run was stable, and
`99 < closest_instable` holds iff no run was unstable. -/
theorem search_branch_character {cfl0 : ℚ} {o : ℕ → Bool} {k : ℕ} {s : SearchState}
    (h98 : cfl0 ≤ 98) (hk1 : 1 ≤ k) (hk : k ≤ 12) (hInv : SearchInv cfl0 o k s) :
    ((s.closest_stable < 0) ↔ noStableYetB o k = true) ∧
    ((99 < s.closest_instable) ↔ allStableB o k = true) := by
  obtain ⟨hlen, hbnd, hc, hphase⟩ := hInv
  have hk12 : (k : ℚ) ≤ 12 := by exact_mod_cast hk
  have hb99 : ∀ x ∈ s.tested, x < 99 := fun x hx =>
    lt_of_le_of_lt (hbnd x hx).2 (by linarith)
  rcases hphase with hD | hI' | hM
  · obtain ⟨hcs, hall, hdec, hci⟩ := hD
    constructor
    · constructor
      · intro _
        exact (noStableYetB_iff o k).mpr hall
      · intro _
        rw [hcs]
        norm_num
    · rcases hci with ⟨htE, _⟩ | ⟨hciT, _⟩
      · exfalso
        rw [htE] at hlen
        simp at hlen
        omega
      · constructor
        · intro h
          exact absurd h (not_lt.mpr (le_of_lt (hb99 _ hciT)))
        · intro hA
          have h1 := (allStableB_iff o k).mp hA 0 (by omega)
          have h0 := hall 0 (by omega)
          rw [h0] at h1
          exact Bool.noConfusion h1
  · obtain ⟨hcsT, hall, hci100, _, _⟩ := hI'
    have hkpos : 0 < k := hlen ▸ List.length_pos.mpr (List.ne_nil_of_mem hcsT)
    have hcs0 : 0 < s.closest_stable := (hbnd _ hcsT).1
    constructor
    · constructor
      · intro h
        exact absurd h (not_lt.mpr (le_of_lt hcs0))
      · intro hN
        have h1 := (noStableYetB_iff o k).mp hN 0 hkpos
        have h0 := hall 0 hkpos
        rw [h0] at h1
        exact Bool.noConfusion h1
    · constructor
      · intro _
        exact (allStableB_iff o k).mpr hall
      · intro _
        rw [hci100]
        norm_num
  · obtain ⟨hcsT, hciT, hex1, hex0, _, _, _⟩ := hM
    have hcs0 : 0 < s.closest_stable := (hbnd _ hcsT).1
    constructor
    · constructor
      · intro h
        exact absurd h (not_lt.mpr (le_of_lt hcs0))
      · intro hN
        obtain ⟨j, hj, hoj⟩ := hex1
        have h1 := (noStableYetB_iff o k).mp hN j hj
        rw [hoj] at h1
        exact Bool.noConfusion h1
    · constructor
      · intro h
        exact absurd h (not_lt.mpr (le_of_lt (hb99 _ hciT)))
      · intro hA
        obtain ⟨j, hj, hoj⟩ := hex0
        have h1 := (allStableB_iff o k).mp hA j hj
        rw [hoj] at h1
        exact Bool.noConfusion h1

theorem searchRun_tested_map (dfac : ℚ) (o : ℕ → Bool) (cfl0 : ℚ) (k : ℕ) :
    (searchRun dfac o cfl0 k).tested =
      (List.range k).map (fun j => (searchRun dfac o cfl0 j).cfl_test) := by
  induction k with
  | zero => rfl
  | succ n ih =>
    rw [searchRun, searchStep_tested, ih, List.range_succ, List.map_append]
    rfl

/-! ## Claim C9 -/

/-- C9 counterexample: with initial candidate 100 (degree factor 1) and
runs that are unstable for six iterations and stable afterwards, the final
`parameters_in.cfl_number` is 99.7 — a value that WAS tested (it was the
candidate of iteration 4, found unstable): once an unstable candidate above
99 is recorded, the `> 99.0` sentinel test keeps adding 0.05, and the
candidate walk returns to an already-tested value.  So "a value that was
never itself tested" does not hold of every run. -/
theorem claim9_counterexample :
    final_cfl_number 1 (fun j => decide (6 ≤ j)) 100 = 997 / 10 ∧
    (997 / 10 : ℚ) ∈ (searchRun 1 (fun j => decide (6 ≤ j)) 100 12).tested := by
  constructor
  · norm_num [final_cfl_number, searchRun, searchStep, searchInit, next_candidate]
  · norm_num [searchRun, searchStep, searchInit, next_candidate]

/-- C9 (amended): after `run_cfl_stability_analysis` returns, the shared
`cfl_number` holds the candidate computed at the end of the 12th iteration
(the search writes each next candidate back at the end of every iteration);
the 12 simulation runs are performed exactly at the first 12 candidates, so
the stored value is never run afterwards; and whenever the initial
candidate lies in (0, 98] — so that every candidate stays below 99 — the
stored value is numerically distinct from every tested candidate. -/
theorem claim9_final_cfl (cfl0 dfac : ℚ) (o : ℕ → Bool)
    (h0 : 0 < cfl0) (h98 : cfl0 ≤ 98) (hd : 1 ≤ dfac) :
    final_cfl_number dfac o cfl0 = (searchRun dfac o cfl0 12).cfl_test ∧
    (searchRun dfac o cfl0 12).tested.length = 12 ∧
    (searchRun dfac o cfl0 12).tested =
      (List.range 12).map (fun j => (searchRun dfac o cfl0 j).cfl_test) ∧
    (searchRun dfac o cfl0 12).cfl_test ∉ (searchRun dfac o cfl0 12).tested := by
  obtain ⟨hlen, hbnd, hc, hphase⟩ :=
    SearchInv_upto cfl0 dfac o h0 h98 hd 12 (le_refl 12)
  refine ⟨rfl, hlen, searchRun_tested_map dfac o cfl0 12, ?_⟩
  intro hmem
  rcases hphase with hD | hI' | hM
  · exact absurd (hD.2.2.1 _ hmem) (lt_irrefl _)
  · have h1 := hI'.2.2.2.1 _ hmem
    have h2 := hI'.2.2.2.2
    linarith
  · rcases hM.2.2.2.2.2.2 _ hmem with h | h
    · linarith [hM.2.2.2.2.1]
    · linarith [hM.2.2.2.2.2.1]

/-- Witness for C9 (amended) at initial candidate 1, degree factor 1. -/
theorem claim9_witness :
    (0 : ℚ) < 1 ∧
    (searchRun 1 (fun _ => false) 1 12).cfl_test ∉
      (searchRun 1 (fun _ => false) 1 12).tested := by
  exact ⟨by decide,
    (claim9_final_cfl 1 1 (fun _ => false) (by decide) (by decide) (by decide)).2.2.2⟩

/-! ## Claim C4 -/

/-- C4 counterexample: with initial candidate 99.5 (degree factor 1) and
verdicts unstable, stable, unstable, both bounds genuinely exist after
iteration 2 (stable 99.4, instable updated to 99.45 at iteration 3), yet
the candidate selected at the end of iteration 3 is 99.5 — the `+ 0.05`
branch, because `closest_instable = 99.45 > 99` still passes the sentinel
test — and not the midpoint (99.45 + 99.4)/2 = 99.425.  So "once both
bounds exist, take the midpoint" does not hold as stated. -/
theorem claim4_counterexample :
    ((fun j => decide (j = 1)) 1 = true ∧ (fun j => decide (j = 1)) 0 = false) ∧
    (searchRun 1 (fun j => decide (j = 1)) (199 / 2) 3).closest_stable = 497 / 5 ∧
    (searchRun 1 (fun j => decide (j = 1)) (199 / 2) 3).closest_instable = 1989 / 20 ∧
    (searchRun 1 (fun j => decide (j = 1)) (199 / 2) 3).cfl_test = 199 / 2 ∧
    (searchRun 1 (fun j => decide (j = 1)) (199 / 2) 3).cfl_test ≠
      ((searchRun 1 (fun j => decide (j = 1)) (199 / 2) 3).closest_instable +
        (searchRun 1 (fun j => decide (j = 1)) (199 / 2) 3).closest_stable) / 2 := by
  refine ⟨⟨by decide, by decide⟩, ?_, ?_, ?_, ?_⟩ <;>
    norm_num [searchRun, searchStep, searchInit, next_candidate]

/-- C4 (amended): the search performs exactly 12 iterations, one full
simulation each (the 12 tested candidates are the first 12 values of
`cfl_test`); each iteration updates exactly one bound — `closest_stable` on
a stable verdict, `closest_instable` on an unstable one; and, for initial
candidates in (0, 98] with degree factor ≥ 1 (so every candidate stays
below 99 and the code's sentinel tests `closest_stable < 0`,
`closest_instable > 99` agree with genuine bound existence), the next
candidate follows the claimed rule: while no stable bound exists, subtract
0.1 unless the candidate over the degree factor is at or below 0.15, then
divide by 3; while no unstable bound exists, add 0.05; once both bounds
exist, take the midpoint. -/
theorem claim4_search_iteration (cfl0 dfac : ℚ) (o : ℕ → Bool) (k : ℕ)
    (h0 : 0 < cfl0) (h98 : cfl0 ≤ 98) (hd : 1 ≤ dfac) (hk : k < 12) :
    (searchRun dfac o cfl0 12).tested.length = 12 ∧
    (searchRun dfac o cfl0 12).tested =
      (List.range 12).map (fun j => (searchRun dfac o cfl0 j).cfl_test) ∧
    (searchRun dfac o cfl0 (k + 1)).closest_stable =
      (if o k then (searchRun dfac o cfl0 k).cfl_test
        else (searchRun dfac o cfl0 k).closest_stable) ∧
    (searchRun dfac o cfl0 (k + 1)).closest_instable =
      (if o k then (searchRun dfac o cfl0 k).closest_instable
        else (searchRun dfac o cfl0 k).cfl_test) ∧
    (searchRun dfac o cfl0 (k + 1)).cfl_test =
      (if noStableYetB o (k + 1) then
        (if 3 / 20 < (searchRun dfac o cfl0 k).cfl_test / dfac then
          (searchRun dfac o cfl0 k).cfl_test - 1 / 10
        else (searchRun dfac o cfl0 k).cfl_test / 3)
      else if allStableB o (k + 1) then (searchRun dfac o cfl0 k).cfl_test + 1 / 20
      else
        ((searchRun dfac o cfl0 (k + 1)).closest_instable +
          (searchRun dfac o cfl0 (k + 1)).closest_stable) / 2) := by
  have hlen12 := (SearchInv_upto cfl0 dfac o h0 h98 hd 12 (le_refl 12)).1
  have hInv1 := SearchInv_upto cfl0 dfac o h0 h98 hd (k + 1) (by omega)
  have hchar := search_branch_character h98 (by omega) (by omega) hInv1
  refine ⟨hlen12, searchRun_tested_map dfac o cfl0 12, ?_, ?_, ?_⟩
  · rw [searchRun, searchStep_cs]
  · rw [searchRun, searchStep_ci]
  · have hstep : (searchRun dfac o cfl0 (k + 1)).cfl_test =
        next_candidate dfac (searchRun dfac o cfl0 k).cfl_test
          (searchRun dfac o cfl0 (k + 1)).closest_stable
          (searchRun dfac o cfl0 (k + 1)).closest_instable := by
      rw [searchRun, searchStep_cfl]
    rw [hstep]
    by_cases hno : noStableYetB o (k + 1) = true
    · have hcs := hchar.1.mpr hno
      rw [if_pos hno]
      unfold next_candidate
      rw [if_pos hcs]
    · have hcs : ¬((searchRun dfac o cfl0 (k + 1)).closest_stable < 0) := fun h =>
        hno (hchar.1.mp h)
      by_cases hall : allStableB o (k + 1) = true
      · have hci := hchar.2.mpr hall
        rw [if_neg hno, if_pos hall]
        unfold next_candidate
        rw [if_neg hcs, if_pos hci]
      · have hci : ¬(99 < (searchRun dfac o cfl0 (k + 1)).closest_instable) := fun h =>
          hall (hchar.2.mp h)
        rw [if_neg hno, if_neg hall]
        unfold next_candidate
        rw [if_neg hcs, if_neg hci]

/-- Witness for C4 (amended) at initial candidate 1, degree factor 1,
iteration 0. -/
theorem claim4_witness :
    (0 : ℚ) < 1 ∧
    (searchRun 1 (fun _ => true) 1 12).tested.length = 12 := by
  exact ⟨by decide,
    (claim4_search_iteration 1 1 (fun _ => true) 0 (by decide) (by decide) (by decide)
      (by decide)).1⟩

end ExwaveSpec
